import Mathlib

/-!
Verification of the server-side task management layer of the Task-Managment
repository: a shallow embedding of `server/storage.ts` (the `MemStorage`
class, which is the storage implementation exported as `storage`),
`shared/schema.ts` (the zod insert/update schemas) and the task routes of
`server/routes.ts`, together with theorems settling the frozen claims.

Conventions of the embedding:
* JS `number` values (ids, user ids, clock readings) are `Int`.
* The JS clock (`new Date()`) is passed explicitly as a `now : Int`
  parameter to every operation that reads it.
* The JS `Map` backing `MemStorage` is an insertion-ordered association
  list: `set` on an existing key replaces in place, otherwise appends;
  `delete` removes, returning whether the key existed; `values()` iterates
  in insertion order.
* `Array.prototype.sort` with the comparator
  `(a, b) => b.createdAt.getTime() - a.createdAt.getTime()` is a stable
  sort keeping `a` before `b` whenever `b.createdAt ≤ a.createdAt`; it is
  modelled by `List.insertionSort` (stable) with that relation.
* `dueDate` is stored as an unparsed string; `new Date(str)` at comparison
  time is modelled by `parseCalendarDate`, which parses ISO calendar-date
  strings (the format the client's date input produces) and yields `none`
  for anything else (JS "Invalid Date", whose comparisons are all false).
-/

namespace TaskMgmt

/-- Task priority: the `text("priority", { enum: ["low", "medium", "high"] })`
column of `shared/schema.ts`. -/
inductive Priority where
  | low
  | medium
  | high
deriving DecidableEq, Repr

/-- A row of the `tasks` table / a value of the `MemStorage` task map
(`Task` in `shared/schema.ts`). -/
structure Task where
  id : Int
  title : String
  description : Option String
  priority : Priority
  dueDate : Option String
  completed : Bool
  userId : Int
  createdAt : Int
  updatedAt : Int
deriving DecidableEq, Repr

/-- The output type of `insertTaskSchema.parse`: title present and
validated, priority and completed filled with their zod defaults. -/
structure InsertTask where
  title : String
  description : Option String
  priority : Priority
  dueDate : Option String
  completed : Bool
deriving DecidableEq, Repr

/-- A well-typed request body for `POST /api/tasks` before schema
validation.  `userId` models an extra `userId` key a client may include in
the JSON body; `insertTaskSchema` has no such field, and zod object
parsing strips unknown keys, so `parseInsertTask` ignores it. -/
structure CreatePayload where
  title : String
  description : Option String := none
  priority : Option Priority := none
  dueDate : Option String := none
  completed : Option Bool := none
  userId : Option Int := none
deriving DecidableEq, Repr

/-- A well-typed request body for `PATCH /api/tasks/:id`, i.e. the input
of `updateTaskSchema.omit({ id: true }).parse`: every field independently
absent (`none`) or present.  zod's `.partial()` applies no defaults and
its output omits absent keys, so an absent field never reaches the spread
`{ ...task, ...updates }`. -/
structure UpdatePayload where
  title : Option String := none
  description : Option String := none
  priority : Option Priority := none
  dueDate : Option String := none
  completed : Option Bool := none
deriving DecidableEq, Repr

/-- The result record of `getTaskStats`. -/
structure TaskStats where
  total : Nat
  completed : Nat
  pending : Nat
  overdue : Nat
deriving DecidableEq, Repr

/-- The state of the `MemStorage` class: the `tasks` map (insertion-ordered)
and the `nextTaskId` counter. -/
structure MemStorage where
  tasks : List (Int × Task)
  nextTaskId : Int
deriving DecidableEq, Repr

/-- The initial `MemStorage` state: empty map, `nextTaskId = 1`. -/
def MemStorage.init : MemStorage := ⟨[], 1⟩

/-- JS `Map.prototype.get`. -/
def mapGet (m : List (Int × Task)) (k : Int) : Option Task :=
  (m.find? (fun p => p.1 == k)).map (fun p => p.2)

/-- JS `Map.prototype.has`. -/
def mapHas (m : List (Int × Task)) (k : Int) : Bool :=
  m.any (fun p => p.1 == k)

/-- JS `Map.prototype.set`: replace in place when the key exists, else
append (insertion order preserved). -/
def mapSet (m : List (Int × Task)) (k : Int) (v : Task) : List (Int × Task) :=
  if mapHas m k then m.map (fun p => if p.1 == k then (k, v) else p)
  else m ++ [(k, v)]

/-- JS `Map.prototype.delete` (the new map; the returned boolean is
`mapHas m k`). -/
def mapDelete (m : List (Int × Task)) (k : Int) : List (Int × Task) :=
  m.filter (fun p => !(p.1 == k))

/-- JS `Array.from(map.values())`: values in insertion order. -/
def mapValues (m : List (Int × Task)) : List Task := m.map (fun p => p.2)

/-- JS truthiness of an optional string: `undefined`, `null` and `""` are
falsy, every other string truthy. -/
def jsStrTruthy : Option String → Bool
  | none => false
  | some s => !(s == "")

/-- The JS expression `x || null` on an optional string (used by
`MemStorage.createTask` on `description` and `dueDate`). -/
def jsOrNull (o : Option String) : Option String :=
  if jsStrTruthy o then o else none

/-- Digit list to number, most significant first. -/
def digitsToNat (cs : List Char) : Nat :=
  cs.foldl (fun a c => a * 10 + (c.toNat - 48)) 0

/-- Split a character list on `'-'` (the groups between dashes). -/
def splitDash (cs : List Char) : List (List Char) :=
  match cs with
  | [] => [[]]
  | c :: rest =>
    if c = '-' then [] :: splitDash rest
    else
      match splitDash rest with
      | [] => [[c]]
      | g :: gs => (c :: g) :: gs

/-- The numeric value of a non-empty all-digit group, else `none`. -/
def natOfDigits (cs : List Char) : Option Nat :=
  if cs ≠ [] ∧ cs.all (fun c => c.isDigit) then some (digitsToNat cs)
  else none

/-- `new Date(str).getTime()` on a calendar-date string `YYYY-MM-DD`
(4-2-2 digits, month 1–12, day 1–31), as a strictly monotone encoding of
the date; `none` models JS "Invalid Date". -/
def parseCalendarDate (s : String) : Option Int :=
  match splitDash s.toList with
  | [ys, ms, ds] =>
    match natOfDigits ys, natOfDigits ms, natOfDigits ds with
    | some y, some m, some d =>
      if ys.length = 4 ∧ ms.length = 2 ∧ ds.length = 2
          ∧ 1 ≤ m ∧ m ≤ 12 ∧ 1 ≤ d ∧ d ≤ 31 then
        some ((y * 372 + (m - 1) * 31 + (d - 1) : Nat) : Int)
      else none
    | _, _, _ => none
  | _ => none

/-- JS `parseInt(str)` (radix 10): skip leading whitespace, optional sign,
then the longest digit prefix; `none` models `NaN` (no digit found). -/
def jsParseInt (s : String) : Option Int :=
  let cs := s.toList.dropWhile (fun c => c.isWhitespace)
  let sr : Int × List Char :=
    match cs with
    | '-' :: r => (-1, r)
    | '+' :: r => (1, r)
    | r => (1, r)
  let digits := sr.2.takeWhile (fun c => c.isDigit)
  if digits.isEmpty then none
  else some (sr.1 * (digitsToNat digits : Int))

/-- The predicate of the `overdue` filter in `MemStorage.getTaskStats`:
`!task.completed && task.dueDate && new Date(task.dueDate) < now`. -/
def isOverdue (t : Task) (now : Int) : Bool :=
  !t.completed &&
    (match t.dueDate with
     | none => false
     | some ds =>
       !(ds == "") &&
         (match parseCalendarDate ds with
          | some d => decide (d < now)
          | none => false))

/-- `MemStorage.getTasks`: the user's tasks, sorted with the comparator
`(a, b) => b.createdAt.getTime() - a.createdAt.getTime()` (descending by
creation time; JS sort is stable). -/
def MemStorage.getTasks (s : MemStorage) (userId : Int) : List Task :=
  List.insertionSort (fun a b => b.createdAt ≤ a.createdAt)
    ((mapValues s.tasks).filter (fun t => t.userId == userId))

/-- `MemStorage.getTask`: map lookup, owner check folded into the same
`undefined` result. -/
def MemStorage.getTask (s : MemStorage) (id userId : Int) : Option Task :=
  match mapGet s.tasks id with
  | none => none
  | some t => if t.userId == userId then some t else none

/-- `MemStorage.createTask`: builds the task (with the JS `||` fallbacks
of the source on `description`, `dueDate` and `completed`; `priority` is a
non-empty enum string, so its `|| 'medium'` fallback is the identity),
stores it at key `task.id = nextTaskId`, increments `nextTaskId`. -/
def MemStorage.createTask (s : MemStorage) (d : InsertTask) (userId : Int)
    (now : Int) : Task × MemStorage :=
  let t : Task :=
    { id := s.nextTaskId
      title := d.title
      description := jsOrNull d.description
      priority := d.priority
      dueDate := jsOrNull d.dueDate
      completed := d.completed || false
      userId := userId
      createdAt := now
      updatedAt := now }
  (t, { tasks := mapSet s.tasks t.id t, nextTaskId := s.nextTaskId + 1 })

/-- The JS spread `{ ...task, ...updates, updatedAt: new Date() }`:
present keys of `updates` overwrite, absent keys leave the prior value. -/
def applyUpdate (t : Task) (u : UpdatePayload) (now : Int) : Task :=
  { t with
    title := u.title.getD t.title
    description := match u.description with
      | some d => some d
      | none => t.description
    priority := u.priority.getD t.priority
    dueDate := match u.dueDate with
      | some d => some d
      | none => t.dueDate
    completed := u.completed.getD t.completed
    updatedAt := now }

/-- `MemStorage.updateTask`: ownership-checked lookup via `getTask`, then
spread-update and `set` back under the same key. -/
def MemStorage.updateTask (s : MemStorage) (id userId : Int)
    (u : UpdatePayload) (now : Int) : Option Task × MemStorage :=
  match s.getTask id userId with
  | none => (none, s)
  | some t =>
    let t2 := applyUpdate t u now
    (some t2, { s with tasks := mapSet s.tasks id t2 })

/-- `MemStorage.deleteTask`: ownership-checked lookup via `getTask`; on a
hit, `Map.delete` (whose boolean result is `mapHas`). -/
def MemStorage.deleteTask (s : MemStorage) (id userId : Int) :
    Bool × MemStorage :=
  match s.getTask id userId with
  | none => (false, s)
  | some _ => (mapHas s.tasks id, { s with tasks := mapDelete s.tasks id })

/-- `MemStorage.getTaskStats`: counts over `getTasks userId`. -/
def MemStorage.getTaskStats (s : MemStorage) (userId : Int) (now : Int) :
    TaskStats :=
  let userTasks := s.getTasks userId
  { total := userTasks.length
    completed := (userTasks.filter (fun t => t.completed)).length
    pending := (userTasks.filter (fun t => !t.completed)).length
    overdue := (userTasks.filter (fun t => isOverdue t now)).length }

/-- `insertTaskSchema.parse` on a well-typed body: title must be 1–200
characters, `priority` defaults to `medium`, `completed` to `false`;
unknown keys (`userId`) are stripped; `none` models a thrown `ZodError`. -/
def parseInsertTask (b : CreatePayload) : Option InsertTask :=
  if 1 ≤ b.title.length ∧ b.title.length ≤ 200 then
    some { title := b.title
           description := b.description
           priority := b.priority.getD Priority.medium
           dueDate := b.dueDate
           completed := b.completed.getD false }
  else none

/-- `updateTaskSchema.omit({ id: true }).parse` on a well-typed body: the
partial schema keeps per-field refinements, so a present title must still
be 1–200 characters; absent fields stay absent. -/
def parseUpdateTask (b : UpdatePayload) : Option UpdatePayload :=
  match b.title with
  | some t => if 1 ≤ t.length ∧ t.length ≤ 200 then some b else none
  | none => some b

/-- A request to one of the protected task endpoints of
`server/routes.ts`; id path parameters are carried as raw strings. -/
inductive Req where
  | listTasks
  | stats
  | getTask (idStr : String)
  | createTask (body : CreatePayload)
  | updateTask (idStr : String) (body : UpdatePayload)
  | deleteTask (idStr : String)
deriving DecidableEq, Repr

/-- What a route handler produces: HTTP status, resulting store state, and
the task in the response body when there is one. -/
structure HandleResult where
  status : Nat
  state : MemStorage
  taskBody : Option Task
deriving DecidableEq, Repr

/-- The task routes of `server/routes.ts`.  `session` is
`req.session?.userId`; the `requireAuth` middleware rejects with 401
before the handler body runs when it is absent.  Handlers first
`parseInt` the id (`isNaN` ⇒ 400), then schema-validate the body
(`ZodError` ⇒ 400), then call the storage operation. -/
def handle (req : Req) (session : Option Int) (now : Int) (s : MemStorage) :
    HandleResult :=
  match session with
  | none => ⟨401, s, none⟩
  | some uid =>
    match req with
    | .listTasks => ⟨200, s, none⟩
    | .stats => ⟨200, s, none⟩
    | .getTask idStr =>
      match jsParseInt idStr with
      | none => ⟨400, s, none⟩
      | some id =>
        match s.getTask id uid with
        | none => ⟨404, s, none⟩
        | some t => ⟨200, s, some t⟩
    | .createTask body =>
      match parseInsertTask body with
      | none => ⟨400, s, none⟩
      | some d =>
        let r := s.createTask d uid now
        ⟨201, r.2, some r.1⟩
    | .updateTask idStr body =>
      match jsParseInt idStr with
      | none => ⟨400, s, none⟩
      | some id =>
        match parseUpdateTask body with
        | none => ⟨400, s, none⟩
        | some u =>
          match s.updateTask id uid u now with
          | (none, _) => ⟨404, s, none⟩
          | (some t, s2) => ⟨200, s2, some t⟩
    | .deleteTask idStr =>
      match jsParseInt idStr with
      | none => ⟨400, s, none⟩
      | some id =>
        let r := s.deleteTask id uid
        if r.1 then ⟨204, r.2, none⟩ else ⟨404, s, none⟩

/-- The spec's notion of a "numeric id" path parameter, for comparison
with what the routes actually accept: a non-empty all-digit string. -/
def specNumericString (s : String) : Bool :=
  !(s == "") && s.toList.all (fun c => c.isDigit)

/-- A sample validated create payload used as concrete input. -/
def sampleInsert : InsertTask :=
  { title := "a", description := none, priority := .medium,
    dueDate := none, completed := false }

/-- One task created at time 10 by user 1 from the initial state. -/
def sA : Task × MemStorage := MemStorage.init.createTask sampleInsert 1 10

/-- A second task created at time 20 by user 1 on top of `sA`. -/
def sB : Task × MemStorage := sA.2.createTask sampleInsert 1 20

/-- The stored task of `sA`, written out. -/
def sAtask : Task :=
  { id := 1, title := "a", description := none, priority := .medium,
    dueDate := none, completed := false, userId := 1,
    createdAt := 10, updatedAt := 10 }

/-! ### Lemmas about the `Map` model -/

theorem find?_eq_none_of_not_has (m : List (Int × Task)) (k : Int)
    (h : mapHas m k = false) : m.find? (fun p => p.1 == k) = none := by
  simp only [mapHas, List.any_eq_false] at h
  exact List.find?_eq_none.mpr h

theorem mapGet_eq_none_of_not_has (m : List (Int × Task)) (k : Int)
    (h : mapHas m k = false) : mapGet m k = none := by
  simp only [mapGet]
  rw [find?_eq_none_of_not_has m k h]
  rfl

theorem mapHas_of_get_some (m : List (Int × Task)) (k : Int) (t : Task)
    (h : mapGet m k = some t) : mapHas m k = true := by
  cases hh : mapHas m k
  · rw [mapGet_eq_none_of_not_has m k hh] at h; cases h
  · rfl

theorem mem_of_mapGet_some (m : List (Int × Task)) (k : Int) (t : Task)
    (h : mapGet m k = some t) : (k, t) ∈ m := by
  simp only [mapGet] at h
  cases hf : m.find? (fun p => p.1 == k) with
  | none => rw [hf] at h; cases h
  | some p =>
    rw [hf] at h
    have hm := List.mem_of_find?_eq_some hf
    have hk := List.find?_some hf
    simp only [beq_iff_eq] at hk
    simp only [Option.map_some'] at h
    have : p = (k, t) := by
      cases p with
      | mk a b => simp_all
    rw [← this]; exact hm

theorem find?_replace (m : List (Int × Task)) (k : Int) (v : Task)
    (h : mapHas m k = true) :
    (m.map (fun p => if p.1 == k then (k, v) else p)).find?
      (fun p => p.1 == k) = some (k, v) := by
  induction m with
  | nil => simp [mapHas] at h
  | cons p m ih =>
    rw [List.map_cons]
    by_cases hp : p.1 = k
    · have hif : (if p.1 == k then (k, v) else p) = (k, v) := by simp [hp]
      rw [hif, List.find?_cons_of_pos _ (by simp)]
    · have hif : (if p.1 == k then (k, v) else p) = p := by simp [hp]
      have h2 : mapHas m k = true := by
        simp only [mapHas, List.any_cons, Bool.or_eq_true, beq_iff_eq] at h
        rcases h with h | h
        · exact absurd h hp
        · simpa [mapHas] using h
      rw [hif, List.find?_cons_of_neg _ (by simp [hp])]
      exact ih h2

theorem mapGet_mapSet_self (m : List (Int × Task)) (k : Int) (v : Task) :
    mapGet (mapSet m k v) k = some v := by
  by_cases hh : mapHas m k = true
  · unfold mapSet
    rw [if_pos hh]
    simp only [mapGet]
    rw [find?_replace m k v hh]
    rfl
  · have hh2 : mapHas m k = false := by
      revert hh; cases mapHas m k <;> simp
    unfold mapSet
    rw [if_neg hh]
    simp only [mapGet]
    rw [List.find?_append, find?_eq_none_of_not_has m k hh2]
    simp only [Option.none_or]
    rw [List.find?_cons_of_pos _ (by simp)]
    rfl

theorem mapGet_mapDelete_self (m : List (Int × Task)) (k : Int) :
    mapGet (mapDelete m k) k = none := by
  simp only [mapGet, mapDelete]
  rw [List.find?_eq_none.mpr]
  · rfl
  · intro x hx
    have := List.of_mem_filter hx
    simpa using this

theorem keys_mapSet_of_has (m : List (Int × Task)) (k : Int) (v : Task)
    (h : mapHas m k = true) :
    (mapSet m k v).map Prod.fst = m.map Prod.fst := by
  unfold mapSet
  rw [if_pos h, List.map_map]
  apply List.map_congr_left
  intro p _
  by_cases hpk : p.1 = k <;> simp [hpk]

theorem mem_mapSet (m : List (Int × Task)) (k : Int) (v : Task)
    (p2 : Int × Task) (hp : p2 ∈ mapSet m k v) : p2 = (k, v) ∨ p2 ∈ m := by
  unfold mapSet at hp
  by_cases hh : mapHas m k
  · rw [if_pos hh] at hp
    simp only [List.mem_map] at hp
    obtain ⟨q, hq, hfq⟩ := hp
    by_cases hqk : q.1 = k
    · left; rw [← hfq]; simp [hqk]
    · right; rw [← hfq]; simp only [hqk, beq_iff_eq, if_neg hqk]; exact hq
  · rw [if_neg hh] at hp
    simp only [List.mem_append, List.mem_singleton] at hp
    tauto

theorem exists_key_of_mapHas (m : List (Int × Task)) (k : Int)
    (h : mapHas m k = true) : ∃ p ∈ m, p.1 = k := by
  simp only [mapHas, List.any_eq_true, beq_iff_eq] at h
  exact h

theorem mapGet_some_of_getTask_some (s : MemStorage) (id userId : Int)
    (t : Task) (h : s.getTask id userId = some t) :
    mapGet s.tasks id = some t ∧ t.userId = userId := by
  simp only [MemStorage.getTask] at h
  cases hm : mapGet s.tasks id with
  | none => rw [hm] at h; cases h
  | some t0 =>
    rw [hm] at h
    by_cases hu : t0.userId = userId
    · simp [hu] at h
      cases h
      exact ⟨rfl, hu⟩
    · simp [hu] at h

/-- C1: for every task created with owner `ownerId`, `getTask(id, ownerId)`
returns that task; for every `otherId ≠ ownerId`, `getTask(id, otherId)`
returns `none`; `getTask` also returns `none` when no task with that id
exists, and both `none` cases are the same value, indistinguishable to the
caller. -/
theorem getTask_owner_scoped (s : MemStorage) (d : InsertTask)
    (ownerId otherId now : Int) (hneq : otherId ≠ ownerId) :
    (s.createTask d ownerId now).2.getTask (s.createTask d ownerId now).1.id
        ownerId = some (s.createTask d ownerId now).1
    ∧ (s.createTask d ownerId now).2.getTask (s.createTask d ownerId now).1.id
        otherId = none
    ∧ (∀ id userId, mapHas s.tasks id = false → s.getTask id userId = none) := by
  refine ⟨?_, ?_, ?_⟩
  · simp only [MemStorage.createTask, MemStorage.getTask]
    rw [mapGet_mapSet_self]
    simp
  · simp only [MemStorage.createTask, MemStorage.getTask]
    rw [mapGet_mapSet_self]
    simp [hneq, Ne.symm hneq]
  · intro id userId h
    simp [MemStorage.getTask, mapGet_eq_none_of_not_has s.tasks id h]

/-- Witness for C1 at a concrete state: user 2 cannot read user 1's task. -/
theorem getTask_owner_scoped_witness :
    sA.2.getTask sA.1.id 1 = some sA.1 ∧ sA.2.getTask sA.1.id 2 = none :=
  ⟨(getTask_owner_scoped MemStorage.init sampleInsert 1 2 10 (by decide)).1,
   (getTask_owner_scoped MemStorage.init sampleInsert 1 2 10 (by decide)).2.1⟩

/-- C2: every request to a protected task endpoint whose session carries no
`userId` is rejected with 401 before any storage operation runs, leaving
the task store unchanged and returning no task data. -/
theorem handle_unauthenticated_rejects (req : Req) (now : Int)
    (s : MemStorage) : handle req none now s = ⟨401, s, none⟩ := rfl

/-- C3 counterexample: with the exported `MemStorage` backend, two tasks
created at times 10 and 20 come back newest-first (`[20, 10]`), so
`getTasks` is not ordered by creation time ascending as claimed. -/
theorem getTasks_ascending_refuted :
    (sB.2.getTasks 1).map Task.createdAt = [20, 10]
    ∧ ¬ List.Pairwise (fun a b : Int => a ≤ b)
        ((sB.2.getTasks 1).map Task.createdAt) := by
  constructor
  · decide
  · decide

/-- C3 amended: `getTasks(userId)` returns exactly the tasks owned by
`userId` (a permutation of the owner-filtered map values, and only tasks
of that owner), ordered by creation time descending (newest first). -/
theorem getTasks_desc_sorted_perm (s : MemStorage) (userId : Int) :
    (s.getTasks userId).Perm
        ((mapValues s.tasks).filter (fun t => t.userId == userId))
    ∧ List.Pairwise (fun a b : Task => b.createdAt ≤ a.createdAt)
        (s.getTasks userId)
    ∧ ∀ t ∈ s.getTasks userId, t.userId = userId := by
  refine ⟨List.perm_insertionSort _ _, ?_, ?_⟩
  · haveI ht : IsTotal Task (fun a b => b.createdAt ≤ a.createdAt) :=
      ⟨fun a b => le_total b.createdAt a.createdAt⟩
    haveI htr : IsTrans Task (fun a b => b.createdAt ≤ a.createdAt) :=
      ⟨fun a b c h1 h2 => le_trans h2 h1⟩
    exact List.sorted_insertionSort _ _
  · intro t ht
    have hmem := (List.perm_insertionSort
        (fun a b : Task => b.createdAt ≤ a.createdAt)
        ((mapValues s.tasks).filter (fun t => t.userId == userId))).subset ht
    simp only [List.mem_filter, beq_iff_eq] at hmem
    exact hmem.2

/-! ### Counting lemmas for the stats -/

theorem length_filter_not_add (l : List Task) (p : Task → Bool) :
    (l.filter (fun t => !p t)).length + (l.filter p).length = l.length := by
  induction l with
  | nil => rfl
  | cons a l ih =>
    cases hp : p a <;> simp [List.filter_cons, hp] <;> omega

theorem length_filter_le_of_imp (l : List Task) (p q : Task → Bool)
    (h : ∀ t, q t = true → p t = true) :
    (l.filter q).length ≤ (l.filter p).length := by
  induction l with
  | nil => simp
  | cons a l ih =>
    cases hq : q a
    · cases hp : p a <;> simp [List.filter_cons, hq, hp] <;> omega
    · have hp := h a hq
      simp only [List.filter_cons, hq, hp, if_true]
      simpa using ih

theorem isOverdue_not_completed (t : Task) (now : Int)
    (h : isOverdue t now = true) : (!t.completed) = true := by
  simp only [isOverdue, Bool.and_eq_true] at h
  exact h.1

theorem isOverdue_eq_spec (t : Task) (now : Int) :
    isOverdue t now =
      (!t.completed && (match t.dueDate with
        | some ds => (match parseCalendarDate ds with
          | some d => decide (d < now)
          | none => false)
        | none => false)) := by
  unfold isOverdue
  cases hd : t.dueDate with
  | none => rfl
  | some ds =>
    by_cases he : ds = ""
    · subst he
      have hp : parseCalendarDate "" = none := rfl
      simp [hp]
    · cases hbe : (ds == "") with
      | true => exact absurd (by simpa using hbe) he
      | false => simp [hbe]

/-- C4: for every store state, user and query time, the stats satisfy
pending + completed = total and overdue ≤ pending (overdue tasks are a
subset of pending), and overdue counts exactly the user's tasks that are
not completed, have a due date, and whose parsed due date is strictly
before the query time. -/
theorem getTaskStats_invariants (s : MemStorage) (userId now : Int) :
    (s.getTaskStats userId now).pending + (s.getTaskStats userId now).completed
        = (s.getTaskStats userId now).total
    ∧ (s.getTaskStats userId now).overdue ≤ (s.getTaskStats userId now).pending
    ∧ (s.getTaskStats userId now).overdue
        = ((s.getTasks userId).filter (fun t =>
            !t.completed && (match t.dueDate with
              | some ds => (match parseCalendarDate ds with
                | some d => decide (d < now)
                | none => false)
              | none => false))).length := by
  refine ⟨?_, ?_, ?_⟩
  · exact length_filter_not_add (s.getTasks userId) (fun t => t.completed)
  · exact length_filter_le_of_imp (s.getTasks userId) _ _
      (fun t => isOverdue_not_completed t now)
  · simp only [MemStorage.getTaskStats]
    congr 1
    apply List.filter_congr
    intro t _
    exact isOverdue_eq_spec t now

/-- C5 counterexample: a task created at clock reading 10 and updated at
the same clock reading keeps `updatedAt = 10`: the update succeeds but the
new `updatedAt` is not strictly later than the prior one, because the code
merely stamps the current time. -/
theorem updateTask_updatedAt_not_strict :
    sA.2.getTask 1 1 = some sAtask
    ∧ (sA.2.updateTask 1 1 {} 10).1 = some sAtask
    ∧ ¬ sAtask.updatedAt < sAtask.updatedAt := by
  refine ⟨by decide, by decide, by decide⟩

/-- C5 amended: for every existing task owned by `userId`, `updateTask`
applies exactly the provided fields, leaves every omitted field at its
prior value, keeps `id`/`userId`/`createdAt`, sets `updatedAt` to the
update time (strictly later than the prior value whenever the clock has
advanced since the last write), and stores the result; it returns `none`
and leaves the store unchanged when the task is absent or owned by a
different user. -/
theorem updateTask_partial_semantics (s : MemStorage) (id userId now : Int)
    (u : UpdatePayload) :
    (∀ t, s.getTask id userId = some t →
      (s.updateTask id userId u now).1 = some (applyUpdate t u now)
      ∧ (applyUpdate t u now).title = u.title.getD t.title
      ∧ (applyUpdate t u now).description
          = (match u.description with | some d => some d | none => t.description)
      ∧ (applyUpdate t u now).priority = u.priority.getD t.priority
      ∧ (applyUpdate t u now).dueDate
          = (match u.dueDate with | some d => some d | none => t.dueDate)
      ∧ (applyUpdate t u now).completed = u.completed.getD t.completed
      ∧ (applyUpdate t u now).id = t.id
      ∧ (applyUpdate t u now).userId = t.userId
      ∧ (applyUpdate t u now).createdAt = t.createdAt
      ∧ (applyUpdate t u now).updatedAt = now
      ∧ (t.updatedAt < now → t.updatedAt < (applyUpdate t u now).updatedAt)
      ∧ (s.updateTask id userId u now).2.getTask id userId
          = some (applyUpdate t u now))
    ∧ (s.getTask id userId = none → s.updateTask id userId u now = (none, s)) := by
  constructor
  · intro t ht
    obtain ⟨hm, hu⟩ := mapGet_some_of_getTask_some s id userId t ht
    have hupd : s.updateTask id userId u now
        = (some (applyUpdate t u now),
           ⟨mapSet s.tasks id (applyUpdate t u now), s.nextTaskId⟩) := by
      simp [MemStorage.updateTask, ht]
    refine ⟨by rw [hupd], rfl, rfl, rfl, rfl, rfl, rfl, rfl, rfl, rfl,
      ?_, ?_⟩
    · intro hlt
      exact hlt
    · rw [hupd]
      have h2 : (applyUpdate t u now).userId = userId := hu
      simp [MemStorage.getTask, mapGet_mapSet_self, h2]
  · intro h
    simp [MemStorage.updateTask, h]

/-- Witness for C5 (amended) at a concrete state: updating the title of
the task of `sA` at a later clock reading. -/
theorem updateTask_partial_semantics_witness :
    (sA.2.updateTask 1 1 { title := some "b" } 20).1
        = some (applyUpdate sAtask { title := some "b" } 20)
    ∧ sAtask.updatedAt < (applyUpdate sAtask { title := some "b" } 20).updatedAt := by
  have h := (updateTask_partial_semantics sA.2 1 1 20 { title := some "b" }).1
      sAtask (by decide)
  obtain ⟨h1, -, -, -, -, -, -, -, -, -, hstrict, -⟩ := h
  exact ⟨h1, hstrict (by decide)⟩

/-- C6: the owner of every created task is the `userId` resolved from the
session; a `userId` supplied in the request payload is ignored (the
response and resulting state do not depend on it), so no client can assign
a task to another user's id. -/
theorem createTask_owner_from_session (b : CreatePayload) (u now : Int)
    (s : MemStorage) (x : Option Int) :
    (∀ t, (handle (Req.createTask b) (some u) now s).taskBody = some t →
        t.userId = u)
    ∧ handle (Req.createTask { b with userId := x }) (some u) now s
        = handle (Req.createTask b) (some u) now s := by
  constructor
  · intro t ht
    cases hp : parseInsertTask b with
    | none => simp [handle, hp] at ht
    | some d =>
      simp [handle, hp] at ht
      rw [← ht]
      rfl
  · have hpar : parseInsertTask { b with userId := x } = parseInsertTask b := by
      cases b
      rfl
    simp [handle, hpar]

/-- Witness for C6: a payload claiming `userId = 99` still yields a task
owned by the session's user 1. -/
theorem createTask_owner_from_session_witness :
    (handle (Req.createTask { title := "a", userId := some 99 }) (some 1) 10
        MemStorage.init).taskBody = some sAtask
    ∧ sAtask.userId = 1 :=
  ⟨by decide,
   (createTask_owner_from_session { title := "a", userId := some 99 } 1 10
      MemStorage.init (some 99)).1 sAtask (by decide)⟩

/-- C7: a create request whose title is not 1–200 characters fails with
400 and leaves the store unchanged; otherwise a task is created (and
stored) with priority defaulting to `medium`, completed defaulting to
`false`, owner the session user, and `createdAt`/`updatedAt` stamped to
the current time. -/
theorem createTask_validation_defaults (b : CreatePayload) (u now : Int)
    (s : MemStorage) :
    (¬ (1 ≤ b.title.length ∧ b.title.length ≤ 200) →
        handle (Req.createTask b) (some u) now s = ⟨400, s, none⟩)
    ∧ ((1 ≤ b.title.length ∧ b.title.length ≤ 200) →
        ∃ t, (handle (Req.createTask b) (some u) now s).status = 201
          ∧ (handle (Req.createTask b) (some u) now s).taskBody = some t
          ∧ (handle (Req.createTask b) (some u) now s).state.getTask t.id u
              = some t
          ∧ t.title = b.title
          ∧ t.priority = b.priority.getD Priority.medium
          ∧ t.completed = b.completed.getD false
          ∧ t.userId = u ∧ t.createdAt = now ∧ t.updatedAt = now) := by
  constructor
  · intro h
    have hp : parseInsertTask b = none := by
      unfold parseInsertTask
      rw [if_neg h]
    simp [handle, hp]
  · intro h
    have hp : parseInsertTask b
        = some { title := b.title, description := b.description,
                 priority := b.priority.getD Priority.medium,
                 dueDate := b.dueDate,
                 completed := b.completed.getD false } := by
      unfold parseInsertTask
      rw [if_pos h]
    refine ⟨(s.createTask
        { title := b.title, description := b.description,
          priority := b.priority.getD Priority.medium,
          dueDate := b.dueDate, completed := b.completed.getD false }
        u now).1, ?_, ?_, ?_, rfl, rfl, ?_, rfl, rfl, rfl⟩
    · simp [handle, hp]
    · simp [handle, hp]
    · simp only [handle, hp]
      simp only [MemStorage.createTask, MemStorage.getTask]
      rw [mapGet_mapSet_self]
      simp
    · simp [MemStorage.createTask]

/-- Witness for C7: empty title is rejected with 400; title "a" yields a
201 response. -/
theorem createTask_validation_defaults_witness :
    handle (Req.createTask { title := "" }) (some 1) 10 MemStorage.init
        = ⟨400, MemStorage.init, none⟩
    ∧ (handle (Req.createTask { title := "a" }) (some 1) 10
        MemStorage.init).status = 201 := by
  refine ⟨(createTask_validation_defaults { title := "" } 1 10
      MemStorage.init).1 (by decide), ?_⟩
  obtain ⟨t, h1, -⟩ := (createTask_validation_defaults { title := "a" } 1 10
      MemStorage.init).2 (by decide)
  exact h1

theorem mapHas_mapDelete_self (m : List (Int × Task)) (k : Int) :
    mapHas (mapDelete m k) k = false := by
  simp only [mapHas, mapDelete, List.any_eq_false]
  intro x hx
  have := List.of_mem_filter hx
  simpa using this

/-- C8: `deleteTask(id, userId)` returns true exactly when a task with
that id owned by `userId` existed; on false the state is unchanged; on
true the task is removed and `getTask(id, userId)` afterwards returns
`none`. -/
theorem deleteTask_semantics (s : MemStorage) (id userId : Int) :
    ((s.deleteTask id userId).1 = true ↔ ∃ t, s.getTask id userId = some t)
    ∧ ((s.deleteTask id userId).1 = false → (s.deleteTask id userId).2 = s)
    ∧ ((s.deleteTask id userId).1 = true →
        mapHas (s.deleteTask id userId).2.tasks id = false
        ∧ (s.deleteTask id userId).2.getTask id userId = none) := by
  cases hg : s.getTask id userId with
  | none =>
    have hd : s.deleteTask id userId = (false, s) := by
      simp [MemStorage.deleteTask, hg]
    refine ⟨?_, ?_, ?_⟩
    · rw [hd]
      constructor
      · intro h; cases h
      · rintro ⟨t, ht⟩
        cases ht
    · intro _
      rw [hd]
    · intro h
      rw [hd] at h
      cases h
  | some t =>
    obtain ⟨hm, hu⟩ := mapGet_some_of_getTask_some s id userId t hg
    have hhas := mapHas_of_get_some s.tasks id t hm
    have hd : s.deleteTask id userId
        = (true, ⟨mapDelete s.tasks id, s.nextTaskId⟩) := by
      simp [MemStorage.deleteTask, hg, hhas]
    refine ⟨?_, ?_, ?_⟩
    · rw [hd]
      exact ⟨fun _ => ⟨t, rfl⟩, fun _ => rfl⟩
    · intro h
      rw [hd] at h
      cases h
    · intro _
      rw [hd]
      exact ⟨mapHas_mapDelete_self s.tasks id,
        by simp [MemStorage.getTask, mapGet_mapDelete_self]⟩

/-- Witness for C8: deleting user 1's task 1 succeeds and makes it
invisible; user 2's attempt on the same id returns false and changes
nothing. -/
theorem deleteTask_semantics_witness :
    (sA.2.deleteTask 1 1).1 = true
    ∧ (sA.2.deleteTask 1 1).2.getTask 1 1 = none
    ∧ (sA.2.deleteTask 1 2).1 = false
    ∧ (sA.2.deleteTask 1 2).2 = sA.2 := by
  have h1 := (deleteTask_semantics sA.2 1 1).1.mpr ⟨sAtask, by decide⟩
  have h2 := ((deleteTask_semantics sA.2 1 1).2.2 h1).2
  have h3 : (sA.2.deleteTask 1 2).1 = false := by decide
  have h4 := (deleteTask_semantics sA.2 1 2).2.1 h3
  exact ⟨h1, h2, h3, h4⟩

/-- C9 counterexample: the id string "1x" is not numeric, yet
`parseInt("1x") = 1`, so the delete route performs the repository
operation and answers 204 instead of rejecting with 400. -/
theorem nonNumericId_accepted :
    specNumericString "1x" = false
    ∧ (handle (Req.deleteTask "1x") (some 1) 30 sA.2).status = 204
    ∧ (handle (Req.deleteTask "1x") (some 1) 30 sA.2).state ≠ sA.2 := by
  refine ⟨by decide, by decide, by decide⟩

/-- C9 amended: a get/update/delete task request whose id path parameter
has no parsable leading integer (JS `parseInt` yields `NaN`) fails with
400 and performs no repository operation. -/
theorem invalidId_rejected_400 (idStr : String) (uid now : Int)
    (s : MemStorage) (b : UpdatePayload) (h : jsParseInt idStr = none) :
    handle (Req.getTask idStr) (some uid) now s = ⟨400, s, none⟩
    ∧ handle (Req.updateTask idStr b) (some uid) now s = ⟨400, s, none⟩
    ∧ handle (Req.deleteTask idStr) (some uid) now s = ⟨400, s, none⟩ := by
  refine ⟨?_, ?_, ?_⟩ <;> simp [handle, h]

/-- Witness for C9 (amended): the id string "abc" is rejected with 400. -/
theorem invalidId_rejected_400_witness :
    handle (Req.getTask "abc") (some 1) 0 MemStorage.init
      = ⟨400, MemStorage.init, none⟩ :=
  (invalidId_rejected_400 "abc" 1 0 MemStorage.init {} (by decide)).1

/-! ### Id freshness along reachable histories -/

/-- The invariant of `MemStorage` tracked against the ghost list `ids` of
all task ids ever assigned: every assigned id is below `nextTaskId`, the
stored keys are pairwise distinct, every stored key was assigned, and
every stored task's `id` field equals its key. -/
def StoreInv (s : MemStorage) (ids : List Int) : Prop :=
  (∀ i ∈ ids, i < s.nextTaskId)
  ∧ (s.tasks.map Prod.fst).Nodup
  ∧ (∀ p ∈ s.tasks, p.1 ∈ ids)
  ∧ (∀ p ∈ s.tasks, p.2.id = p.1)

/-- States reachable from the initial `MemStorage` by task operations,
together with the ghost list of all task ids ever assigned by
`createTask` (ids of since-deleted tasks stay in the list). -/
inductive Reachable : MemStorage → List Int → Prop where
  | init : Reachable MemStorage.init []
  | create (s : MemStorage) (ids : List Int) (d : InsertTask)
      (uid now : Int) :
      Reachable s ids →
      Reachable (s.createTask d uid now).2
        (ids ++ [(s.createTask d uid now).1.id])
  | update (s : MemStorage) (ids : List Int) (id uid : Int)
      (u : UpdatePayload) (now : Int) :
      Reachable s ids → Reachable (s.updateTask id uid u now).2 ids
  | delete (s : MemStorage) (ids : List Int) (id uid : Int) :
      Reachable s ids → Reachable (s.deleteTask id uid).2 ids

theorem storeInv_create (s : MemStorage) (ids : List Int) (d : InsertTask)
    (uid now : Int) (ih : StoreInv s ids) :
    StoreInv (s.createTask d uid now).2
      (ids ++ [(s.createTask d uid now).1.id]) := by
  obtain ⟨hlt, hnd, hmem, hid⟩ := ih
  have hfresh : mapHas s.tasks s.nextTaskId = false := by
    cases hh : mapHas s.tasks s.nextTaskId with
    | false => rfl
    | true =>
      obtain ⟨p, hp, hpk⟩ := exists_key_of_mapHas _ _ hh
      have hplt := hlt p.1 (hmem p hp)
      rw [hpk] at hplt
      exact absurd hplt (lt_irrefl _)
  have happ : (s.createTask d uid now).2.tasks
      = s.tasks ++ [(s.nextTaskId, (s.createTask d uid now).1)] := by
    show mapSet s.tasks s.nextTaskId (s.createTask d uid now).1
        = s.tasks ++ [(s.nextTaskId, (s.createTask d uid now).1)]
    unfold mapSet
    rw [if_neg (by simp [hfresh])]
  refine ⟨?_, ?_, ?_, ?_⟩
  · intro i hi
    rcases List.mem_append.mp hi with hil | hir
    · have := hlt i hil
      show i < s.nextTaskId + 1
      omega
    · have : i = s.nextTaskId := by simpa using hir
      show i < s.nextTaskId + 1
      omega
  · rw [happ, List.map_append]
    rw [List.nodup_append]
    refine ⟨hnd, List.nodup_singleton _, ?_⟩
    intro a ha hb
    obtain ⟨p, hp, hpa⟩ := List.mem_map.mp ha
    have ha2 : a ∈ [s.nextTaskId] := hb
    have hak : a = s.nextTaskId := by simpa using ha2
    have := hlt p.1 (hmem p hp)
    rw [hpa, hak] at this
    exact absurd this (lt_irrefl _)
  · intro p hp
    rw [happ] at hp
    rcases List.mem_append.mp hp with hil | hir
    · exact List.mem_append.mpr (Or.inl (hmem p hil))
    · have : p = (s.nextTaskId, (s.createTask d uid now).1) := by simpa using hir
      rw [this]
      exact List.mem_append.mpr (Or.inr (by simp; rfl))
  · intro p hp
    rw [happ] at hp
    rcases List.mem_append.mp hp with hil | hir
    · exact hid p hil
    · have : p = (s.nextTaskId, (s.createTask d uid now).1) := by simpa using hir
      rw [this]
      rfl

theorem storeInv_update (s : MemStorage) (ids : List Int) (id uid : Int)
    (u : UpdatePayload) (now : Int) (ih : StoreInv s ids) :
    StoreInv (s.updateTask id uid u now).2 ids := by
  obtain ⟨hlt, hnd, hmem, hid⟩ := ih
  cases hg : s.getTask id uid with
  | none =>
    have h2 : (s.updateTask id uid u now).2 = s := by
      simp [MemStorage.updateTask, hg]
    rw [h2]
    exact ⟨hlt, hnd, hmem, hid⟩
  | some t =>
    obtain ⟨hm, hu⟩ := mapGet_some_of_getTask_some s id uid t hg
    have hhas := mapHas_of_get_some s.tasks id t hm
    have h2 : (s.updateTask id uid u now).2
        = ⟨mapSet s.tasks id (applyUpdate t u now), s.nextTaskId⟩ := by
      simp [MemStorage.updateTask, hg]
    rw [h2]
    have hkeys := keys_mapSet_of_has s.tasks id (applyUpdate t u now) hhas
    refine ⟨fun i hi => hlt i hi, ?_, ?_, ?_⟩
    · show (mapSet s.tasks id (applyUpdate t u now) |>.map Prod.fst).Nodup
      rw [hkeys]
      exact hnd
    · intro p hp
      rcases mem_mapSet _ _ _ p hp with he | hin
      · rw [he]
        exact hmem (id, t) (mem_of_mapGet_some _ _ _ hm)
      · exact hmem p hin
    · intro p hp
      rcases mem_mapSet _ _ _ p hp with he | hin
      · rw [he]
        exact hid (id, t) (mem_of_mapGet_some _ _ _ hm)
      · exact hid p hin

theorem storeInv_delete (s : MemStorage) (ids : List Int) (id uid : Int)
    (ih : StoreInv s ids) : StoreInv (s.deleteTask id uid).2 ids := by
  obtain ⟨hlt, hnd, hmem, hid⟩ := ih
  cases hg : s.getTask id uid with
  | none =>
    have h2 : (s.deleteTask id uid).2 = s := by
      simp [MemStorage.deleteTask, hg]
    rw [h2]
    exact ⟨hlt, hnd, hmem, hid⟩
  | some t =>
    have h2 : (s.deleteTask id uid).2
        = ⟨mapDelete s.tasks id, s.nextTaskId⟩ := by
      simp [MemStorage.deleteTask, hg]
    rw [h2]
    refine ⟨fun i hi => hlt i hi, ?_, ?_, ?_⟩
    · exact ((List.filter_sublist _).map Prod.fst).nodup hnd
    · intro p hp
      exact hmem p (List.mem_of_mem_filter hp)
    · intro p hp
      exact hid p (List.mem_of_mem_filter hp)

theorem reachable_storeInv (s : MemStorage) (ids : List Int)
    (h : Reachable s ids) : StoreInv s ids := by
  induction h with
  | init => refine ⟨?_, ?_, ?_, ?_⟩ <;> simp [MemStorage.init]
  | create s ids d uid now _ ih => exact storeInv_create s ids d uid now ih
  | update s ids id uid u now _ ih => exact storeInv_update s ids id uid u now ih
  | delete s ids id uid _ ih => exact storeInv_delete s ids id uid ih

/-- C10: along every reachable history of the in-memory store, stored task
ids are pairwise distinct, every assigned id (deleted ones included) is
strictly below `nextTaskId`, and the next `createTask` assigns exactly
`nextTaskId` — an id strictly greater than every previously assigned id,
so ids are never reused. -/
theorem memStorage_ids_fresh_distinct (s : MemStorage) (ids : List Int)
    (h : Reachable s ids) :
    ((mapValues s.tasks).map Task.id).Nodup
    ∧ (∀ p ∈ s.tasks, p.1 ∈ ids)
    ∧ (∀ i ∈ ids, i < s.nextTaskId)
    ∧ (∀ d uid now, (s.createTask d uid now).1.id = s.nextTaskId
        ∧ ∀ i ∈ ids, i < (s.createTask d uid now).1.id) := by
  obtain ⟨hlt, hnd, hmem, hid⟩ := reachable_storeInv s ids h
  refine ⟨?_, hmem, hlt, ?_⟩
  · have hk : (mapValues s.tasks).map Task.id = s.tasks.map Prod.fst := by
      simp only [mapValues, List.map_map]
      apply List.map_congr_left
      intro p hp
      exact hid p hp
    rw [hk]
    exact hnd
  · intro d uid now
    exact ⟨rfl, fun i hi => hlt i hi⟩

/-- Witness for C10 at the state reached by one create (`sA`): the stored
id list has no duplicates, and a further create assigns `nextTaskId`. -/
theorem memStorage_ids_fresh_distinct_witness :
    ((mapValues sA.2.tasks).map Task.id).Nodup
    ∧ (sA.2.createTask sampleInsert 1 20).1.id = sA.2.nextTaskId := by
  have hr : Reachable sA.2 [sA.1.id] :=
    Reachable.create MemStorage.init [] sampleInsert 1 10 Reachable.init
  have h := memStorage_ids_fresh_distinct sA.2 [sA.1.id] hr
  exact ⟨h.1, (h.2.2.2 sampleInsert 1 20).1⟩

end TaskMgmt
